import Mathlib

/-!
Shallow embedding of `src/Restockv1.js` (RestockBags/RestockOnBags).

The program keeps an in-memory workbook sheet of trade rows, a durable
copy of that sheet on disk, and an in-memory set of wallet addresses
(`uniqueWallets`). A stream handler filters incoming trades, dedups by
buyer address and appends qualifying rows; a refund pass scans the sheet
in order, settles at most the first affordable pending row; an address
resolver maps a token account to its owner wallet behind a fixed-window
rate limiter.

Numbers are modelled as `ℚ` (JS numbers used here are small exact
decimals), timestamps as `Nat` milliseconds, sheet rows as records of
`Option` fields (a missing field is `none`, matching a JS object without
that key), and external effects (RPC fetches, transfer submission, file
writes) as explicit oracle parameters.
-/

/-- Constant from line 8 of the source. -/
def TARGET_MINT_ADDRESS : String := "FU9etYuLtzANF59y5oNoByLge3raMEUn7EC56LkuBAGS"

/-- Constant from lines 9-12 of the source. -/
def SOL_MINT_ADDRESSES : List String :=
  ["So11111111111111111111111111111111111111111",
   "So11111111111111111111111111111111111111112"]

/-- Constant from line 17 of the source. -/
def RATE_LIMIT_PER_SECOND : Nat := 9

/-- Constant from line 38 of the source. -/
def RATE_LIMIT_INTERVAL : Nat := 1000

/-- Constant from line 19 of the source. -/
def MAX_WRITE_RETRIES : Nat := 3

/-- One row of the "Trades" sheet. Each field is optional: a JS object
read back by `sheet_to_json` carries only the keys that are present. -/
structure Row where
  ATA : Option String
  sol_buy_amount : Option ℚ
  status : Option Nat
  solscan_link : Option String
deriving DecidableEq

/-- The row JS produces for `trades[i]` when `i` is out of bounds
(`undefined`, whose spread contributes no fields). -/
def undefRow : Row := ⟨none, none, none, none⟩

/-- The row pushed by `appendTradeToExcel` (line 97):
`{ ATA: ata, sol_buy_amount: solAmount, status: 0, solscan_link: "" }`. -/
def mkTradeRow (ata : String) (solAmount : ℚ) : Row :=
  ⟨some ata, some solAmount, some 0, some ""⟩

/-- JS object spread `{...r, ...u}` on one field: a field present in `u`
overrides the one in `r`. -/
def mergeField {α : Type} : Option α → Option α → Option α
  | some v, _ => some v
  | none, x => x

/-- JS object spread `{...r, ...u}` over all four sheet columns
(line 119 of the source). -/
def mergeRow (r u : Row) : Row :=
  { ATA := mergeField u.ATA r.ATA
  , sol_buy_amount := mergeField u.sol_buy_amount r.sol_buy_amount
  , status := mergeField u.status r.status
  , solscan_link := mergeField u.solscan_link r.solscan_link }

/-- JS array element assignment `xs[i] = v`: an in-bounds index is
overwritten; an out-of-bounds index grows the array, holes reading as
`undefined`. -/
def jsArraySet (xs : List Row) (i : Nat) (v : Row) : List Row :=
  if i < xs.length then xs.set i v
  else xs ++ List.replicate (i - xs.length) undefRow ++ [v]

/-- The pure sheet transformation of `appendTradeToExcel` (lines 96-98):
read the rows, push the new row at the end. -/
def appendTradeToExcelSheet (trades : List Row) (ata : String) (solAmount : ℚ) : List Row :=
  trades ++ [mkTradeRow ata solAmount]

/-- The pure sheet transformation of `updateExcelRow` (lines 118-120):
`trades[index] = { ...trades[index], ...updates }`. -/
def updateExcelRowSheet (trades : List Row) (index : Nat) (updates : Row) : List Row :=
  jsArraySet trades index (mergeRow (trades.getD index undefRow) updates)

/-- The retry loop of lines 100-113 / 122-135: attempt the file write up
to `fuel` times (`writeOk k` is the outcome of attempt number `k`),
return `true` on the first success, `false` once attempts are exhausted. -/
def writeLoop (writeOk : Nat → Bool) : Nat → Nat → Bool
  | _, 0 => false
  | k, fuel + 1 => if writeOk k then true else writeLoop writeOk (k + 1) fuel

/-- `writeFileSync` wrapped in the `MAX_WRITE_RETRIES`-bounded loop. -/
def persistRetries (writeOk : Nat → Bool) : Bool :=
  writeLoop writeOk 0 MAX_WRITE_RETRIES

/-- The mutable state the stream consumer touches: the `uniqueWallets`
set (line 33), the in-memory workbook sheet, and the durable file. -/
structure ConsumerState where
  uniqueWallets : List String
  sheet : List Row
  file : List Row
deriving DecidableEq

/-- `appendTradeToExcel` (lines 94-114): mutate the in-memory sheet
first, then try to persist; the durable file changes only if a write
attempt succeeds; the boolean result reports persistence. -/
def appendTradeToExcel (writeOk : Nat → Bool) (ata : String) (solAmount : ℚ)
    (s : ConsumerState) : Bool × ConsumerState :=
  let sheet2 := appendTradeToExcelSheet s.sheet ata solAmount
  let ok := persistRetries writeOk
  (ok, { uniqueWallets := s.uniqueWallets
       , sheet := sheet2
       , file := if ok then sheet2 else s.file })

/-- `updateExcelRow` (lines 116-136): mutate the in-memory sheet, then
try to persist, reporting persistence as the boolean result. -/
def updateExcelRow (writeOk : Nat → Bool) (index : Nat) (updates : Row)
    (s : ConsumerState) : Bool × ConsumerState :=
  let sheet2 := updateExcelRowSheet s.sheet index updates
  let ok := persistRetries writeOk
  (ok, { uniqueWallets := s.uniqueWallets
       , sheet := sheet2
       , file := if ok then sheet2 else s.file })

/-- A well-formed trade event, as destructured by lines 346-351. -/
structure TradeEvent where
  buyerAddress : String
  buyMint : String
  sellMint : String
  sellAmount : ℚ
deriving DecidableEq

/-- The per-trade body of the "data" handler (lines 345-369): compute
`solAmount`, filter on the target mint, dedup on `uniqueWallets`, add
the buyer and append. Note the source adds the buyer to `uniqueWallets`
before the append and takes no action on append failure. -/
def processTrade (writeOk : Nat → Bool) (s : ConsumerState) (e : TradeEvent) : ConsumerState :=
  let solAmount : ℚ := if e.sellMint ∈ SOL_MINT_ADDRESSES then e.sellAmount else 0
  if TARGET_MINT_ADDRESS = "" ∨ e.buyMint = TARGET_MINT_ADDRESS then
    if e.buyerAddress ∉ s.uniqueWallets ∧ 0 < solAmount then
      (appendTradeToExcel writeOk e.buyerAddress solAmount
        { uniqueWallets := e.buyerAddress :: s.uniqueWallets
        , sheet := s.sheet
        , file := s.file }).2
    else s
  else s

/-- Process a list of trade events in arrival order. -/
def runEvents (writeOk : Nat → Bool) (s : ConsumerState) (events : List TradeEvent) : ConsumerState :=
  events.foldl (processTrade writeOk) s

/-- Startup (lines 33 and 79-92): the workbook is loaded from the file
when it exists (otherwise created empty), while `uniqueWallets` is
initialised to the empty set unconditionally. -/
def startupState (fileRows : Option (List Row)) : ConsumerState :=
  match fileRows with
  | some rows => { uniqueWallets := [], sheet := rows, file := rows }
  | none => { uniqueWallets := [], sheet := [], file := [] }

/-- Constant from lines 61-64 of the source: recognized token-account
owner programs. -/
def TOKEN_PROGRAM_IDS : List String :=
  ["TokenkegQfeZyiNwAJbNbGKPFXCWuBvf9Ss623VQ5DA",
   "TokenzQdBNbLqP5VEhdkAS6EPFLC1PHnBqCXEpPxuEb"]

/-- Outcome of `getAccountInfo` as observed by the resolver: the account
does not exist (`null`), the fetch (or anything else inside the `try`)
threw, or the account exists with an owner program and raw data bytes. -/
inductive FetchResult where
  | notFound : FetchResult
  | transportError : FetchResult
  | account (owner : String) (data : List Nat) : FetchResult

/-- The resolution core of `rateLimitedGetOwnerWallet` (lines 53-76):
on a missing account or on any thrown error return the input unchanged;
on a recognized token account decode the owner key from bytes 32..64
(`decodePubkey` is the external base58 key construction, `none` when it
throws, which the `catch` turns back into the input). -/
def rateLimitedGetOwnerWallet (fetch : String → FetchResult)
    (decodePubkey : List Nat → Option String) (ataAddress : String) : String :=
  match fetch ataAddress with
  | .notFound => ataAddress
  | .transportError => ataAddress
  | .account owner data =>
    if owner ∈ TOKEN_PROGRAM_IDS then
      match decodePubkey ((data.drop 32).take 32) with
      | some k => k
      | none => ataAddress
    else ataAddress

/-- `const requiredBalance = 2 + 2 * solBuyAmount` (line 156). -/
def requiredBalance (solBuyAmount : ℚ) : ℚ := 2 + 2 * solBuyAmount

/-- An externally visible action taken by one refund cycle: a transfer
submission to the chain, or an `updateExcelRow` call on a row index. -/
inductive Effect where
  | transfer (dest : String) (amount : ℚ) : Effect
  | update (index : Nat) (updates : Row) : Effect
deriving DecidableEq

/-- Whether an effect is a transfer submission. -/
def isTransferEffect : Effect → Bool
  | .transfer _ _ => true
  | .update _ _ => false

/-- Whether an effect is a ledger row update. -/
def isUpdateEffect : Effect → Bool
  | .transfer _ _ => false
  | .update _ _ => true

/-- The scan loop of `processRefunds` (lines 151-192), returning the
effects the cycle performs. Rows whose `status` is not `0` are skipped
(`continue`); at the first pending row the cycle either ends with no
effect (missing amount reads as NaN and fails the balance comparison;
insufficient balance; resolver returned the input; transfer failed after
submission is attempted) or submits one transfer and calls
`updateExcelRow` once, and in every branch the loop returns. `resolve`
is the owner resolution, `transferResult` the outcome of
`sendAndConfirmTransaction` (`some` signature on success). -/
def refundScan (resolve : String → String) (transferResult : Option String)
    (treasuryBalance : ℚ) : Nat → List Row → List Effect
  | _, [] => []
  | i, row :: rest =>
    if row.status = some 0 then
      match row.sol_buy_amount with
      | none => []
      | some solBuyAmount =>
        if requiredBalance solBuyAmount ≤ treasuryBalance then
          let ata := row.ATA.getD ""
          let ownerWallet := resolve ata
          if ownerWallet = ata then []
          else
            match transferResult with
            | none => [Effect.transfer ownerWallet solBuyAmount]
            | some signature =>
              [Effect.transfer ownerWallet solBuyAmount,
               Effect.update i ⟨none, none, some 1,
                 some ("https://solscan.io/tx/" ++ signature)⟩]
        else []
    else refundScan resolve transferResult treasuryBalance (i + 1) rest

/-- `processRefunds` (lines 138-194): a no-op when refunds are disabled,
otherwise the ordered scan from index 0. -/
def processRefunds (enableRefunds : Bool) (resolve : String → String)
    (transferResult : Option String) (treasuryBalance : ℚ) (trades : List Row) : List Effect :=
  if enableRefunds then refundScan resolve transferResult treasuryBalance 0 trades
  else []

/-- Rate limiter state (lines 36-37): the running request count and the
window start timestamp, in milliseconds. -/
structure RLState where
  requestCount : Nat
  lastResetTime : Nat
deriving DecidableEq

/-- Run the limiter of lines 40-52 over a list of attempt timestamps:
each attempt first resets the window if a full interval has elapsed,
then either completes (count below the limit; the count increments) or
is blocked (the caller sleeps and shows up as a later attempt). Returns
the completions as pairs of completion time and the window start under
which the slot was granted. -/
def rlRun : RLState → List Nat → List (Nat × Nat)
  | _, [] => []
  | s, now :: rest =>
    let s1 := if RATE_LIMIT_INTERVAL ≤ now - s.lastResetTime
      then { requestCount := 0, lastResetTime := now } else s
    if RATE_LIMIT_PER_SECOND ≤ s1.requestCount then rlRun s1 rest
    else (now, s1.lastResetTime) ::
      rlRun { requestCount := s1.requestCount + 1, lastResetTime := s1.lastResetTime } rest

/-- Number of completions that fall in the half-open time span
`[lo, lo + RATE_LIMIT_INTERVAL)`. -/
def completionsWithin (lo : Nat) (completions : List (Nat × Nat)) : Nat :=
  completions.countP (fun p => decide (lo ≤ p.1 ∧ p.1 < lo + RATE_LIMIT_INTERVAL))

/-- An attempt schedule: nine calls arriving at t = 999 ms and nine more
at t = 1000 ms, the limiter having started at t = 0. -/
def burstTrace : List Nat := List.replicate 9 999 ++ List.replicate 9 1000

/-- A JS value as handled by the "data" message handler: `undefined`,
`null`, numbers, strings, arrays and objects (an object is its list of
present key-value pairs). -/
inductive JVal where
  | undefined : JVal
  | jnull : JVal
  | jnum : ℚ → JVal
  | jstr : String → JVal
  | jarr : List JVal → JVal
  | jobj : List (String × JVal) → JVal

/-- JS property access `v.k`: throws a TypeError on `undefined` and
`null`, yields the entry (or `undefined` when the key is absent) on an
object, and `undefined` on other primitives. -/
def jget : JVal → String → Except Unit JVal
  | .undefined, _ => .error ()
  | .jnull, _ => .error ()
  | .jobj fields, k => .ok ((fields.lookup k).getD .undefined)
  | _, _ => .ok .undefined

/-- `SOL_MINT_ADDRESSES.includes(v)` for a JS value `v`. -/
def jIncludesSolMint : JVal → Bool
  | .jstr s => SOL_MINT_ADDRESSES.contains s
  | _ => false

/-- The field extraction the handler performs on each trade element
(lines 346-353): `trade.Trade.Buy`, `trade.Trade.Sell`,
`buy.Account.Address`, `sell.Currency.MintAddress`, conditionally
`sell.Amount`, `buy.Currency.MintAddress`, and `trade.Block.Time` in the
log line. Any access on a missing (`undefined`) intermediate value
throws, modelled as `Except.error ()`. -/
def handleTrade (t : JVal) : Except Unit (JVal × JVal × JVal × JVal × JVal) := do
  let trade1 ← jget t "Trade"
  let buy ← jget trade1 "Buy"
  let trade2 ← jget t "Trade"
  let sell ← jget trade2 "Sell"
  let acct ← jget buy "Account"
  let buyerAddress ← jget acct "Address"
  let sellCurObj ← jget sell "Currency"
  let sellCurrency ← jget sellCurObj "MintAddress"
  let solAmount ← if jIncludesSolMint sellCurrency then jget sell "Amount"
    else pure (JVal.jnum 0)
  let buyCurObj ← jget buy "Currency"
  let buyMint ← jget buyCurObj "MintAddress"
  let blockObj ← jget t "Block"
  let blockTime ← jget blockObj "Time"
  pure (buyerAddress, sellCurrency, solAmount, buyMint, blockTime)

/-- A qualifying trade event: buy mint is the target asset, sell mint is
a recognized SOL mint, amount 1. -/
def eventW1 : TradeEvent :=
  ⟨"W1", TARGET_MINT_ADDRESS, "So11111111111111111111111111111111111111111", 1⟩

/-! ## Helper lemmas -/

/-- Merging an update into the JS `undefined` row yields exactly the
fields of the update. -/
theorem mergeRow_undefRow (u : Row) : mergeRow undefRow u = u := by
  cases u with
  | mk a b c d =>
    simp only [mergeRow, undefRow]
    cases a <;> cases b <;> cases c <;> cases d <;> rfl

/-- A field absent from the update is taken from the old row. -/
theorem mergeField_none_right {α : Type} (x : Option α) : mergeField (α := α) none x = x := rfl

/-- The retry loop with an always-succeeding write returns `true`. -/
theorem persistRetries_true : persistRetries (fun _ => true) = true := rfl

/-! ## C6 -/

/-- C6: `rateLimitedGetOwnerWallet` returns its input unchanged when the
account does not exist, when the fetch throws, or when the owning
program is not a recognized token program; it can return a different
value only when the fetch produced a recognized token account. -/
theorem resolver_returns_input_on_failure
    (fetch : String → FetchResult) (decodePubkey : List Nat → Option String) (a : String) :
    (fetch a = FetchResult.notFound → rateLimitedGetOwnerWallet fetch decodePubkey a = a)
    ∧ (fetch a = FetchResult.transportError → rateLimitedGetOwnerWallet fetch decodePubkey a = a)
    ∧ (∀ owner data, fetch a = FetchResult.account owner data → owner ∉ TOKEN_PROGRAM_IDS →
        rateLimitedGetOwnerWallet fetch decodePubkey a = a)
    ∧ (rateLimitedGetOwnerWallet fetch decodePubkey a ≠ a →
        ∃ owner data, fetch a = FetchResult.account owner data ∧ owner ∈ TOKEN_PROGRAM_IDS) := by
  refine ⟨fun h => by simp [rateLimitedGetOwnerWallet, h],
    fun h => by simp [rateLimitedGetOwnerWallet, h],
    fun owner data h hmem => by simp [rateLimitedGetOwnerWallet, h, hmem],
    fun hne => ?_⟩
  cases hfe : fetch a with
  | notFound => exact absurd (by simp [rateLimitedGetOwnerWallet, hfe]) hne
  | transportError => exact absurd (by simp [rateLimitedGetOwnerWallet, hfe]) hne
  | account owner data =>
    by_cases hmem : owner ∈ TOKEN_PROGRAM_IDS
    · exact ⟨owner, data, rfl, hmem⟩
    · exact absurd (by simp [rateLimitedGetOwnerWallet, hfe, hmem]) hne

/-- Witness for C6 at a concrete input. -/
theorem resolver_returns_input_on_failure_check :
    rateLimitedGetOwnerWallet (fun _ => FetchResult.notFound) (fun _ => none) "addr" = "addr" :=
  (resolver_returns_input_on_failure (fun _ => FetchResult.notFound) (fun _ => none) "addr").1 rfl

/-! ## C8 -/

/-- C8: at an in-bounds index the sheet transformation of `updateExcelRow`
preserves the number of rows, every other row, and every field of the
target row that the update does not name; and the sheet transformation
of `appendTradeToExcel` only adds the new row at the end. -/
theorem ledger_order_and_frame_preserved
    (trades : List Row) (index : Nat) (updates : Row) (h : index < trades.length) :
    (updateExcelRowSheet trades index updates).length = trades.length
    ∧ (∀ j, j ≠ index → (updateExcelRowSheet trades index updates)[j]? = trades[j]?)
    ∧ (updateExcelRowSheet trades index updates)[index]? =
        some (mergeRow (trades.getD index undefRow) updates)
    ∧ (∀ r u : Row,
        (u.ATA = none → (mergeRow r u).ATA = r.ATA)
        ∧ (u.sol_buy_amount = none → (mergeRow r u).sol_buy_amount = r.sol_buy_amount)
        ∧ (u.status = none → (mergeRow r u).status = r.status)
        ∧ (u.solscan_link = none → (mergeRow r u).solscan_link = r.solscan_link))
    ∧ (∀ (xs : List Row) (ata : String) (amt : ℚ),
        appendTradeToExcelSheet xs ata amt = xs ++ [mkTradeRow ata amt]) := by
  refine ⟨?_, ?_, ?_, ?_, fun xs ata amt => rfl⟩
  · simp [updateExcelRowSheet, jsArraySet, h]
  · intro j hj
    simp only [updateExcelRowSheet, jsArraySet, if_pos h]
    exact List.getElem?_set_ne (fun hji => hj hji.symm)
  · simp only [updateExcelRowSheet, jsArraySet, if_pos h]
    exact List.getElem?_set_eq_of_lt _ h
  · intro r u
    refine ⟨fun hu => ?_, fun hu => ?_, fun hu => ?_, fun hu => ?_⟩ <;>
      simp [mergeRow, hu, mergeField_none_right]

/-- Witness for C8 at a concrete input. -/
theorem ledger_order_and_frame_preserved_check :
    (updateExcelRowSheet [mkTradeRow "A" 1, mkTradeRow "B" 2] 1
      ⟨none, none, some 1, some "x"⟩).length = 2 :=
  (ledger_order_and_frame_preserved [mkTradeRow "A" 1, mkTradeRow "B" 2] 1
    ⟨none, none, some 1, some "x"⟩ (by decide)).1

/-! ## C10 -/

/-- C10: at an index past the end, `updateExcelRow` performs no bounds
check: the sheet grows to `index + 1` rows, the row at `index` is
exactly the fields of the update (the merge partner is `undefined`), and the
call still reports success when the write succeeds. -/
theorem updateExcelRow_out_of_bounds_grows_sheet
    (trades : List Row) (index : Nat) (updates : Row) (s : ConsumerState)
    (h : trades.length ≤ index) :
    (updateExcelRowSheet trades index updates).length = index + 1
    ∧ (updateExcelRowSheet trades index updates)[index]? = some updates
    ∧ trades.length < (updateExcelRowSheet trades index updates).length
    ∧ (updateExcelRow (fun _ => true) index updates s).1 = true := by
  have hnot : ¬ index < trades.length := not_lt.mpr h
  have hget : trades.getD index undefRow = undefRow := by
    simp [List.getD, List.getElem?_eq_none h]
  have hlen : (updateExcelRowSheet trades index updates).length = index + 1 := by
    simp only [updateExcelRowSheet, jsArraySet, if_neg hnot]
    simp only [List.length_append, List.length_replicate, List.length_cons, List.length_nil]
    omega
  refine ⟨hlen, ?_, ?_, rfl⟩
  · simp only [updateExcelRowSheet, jsArraySet, if_neg hnot, hget, mergeRow_undefRow]
    have hlen2 : (trades ++ List.replicate (index - trades.length) undefRow).length = index := by
      simp only [List.length_append, List.length_replicate]; omega
    rw [List.getElem?_append_right (le_of_eq hlen2), hlen2]
    simp
  · rw [hlen]; omega

/-- Witness for C10 at a concrete input. -/
theorem updateExcelRow_out_of_bounds_grows_sheet_check :
    (updateExcelRowSheet [] 2 ⟨none, none, some 1, some "x"⟩).length = 3 :=
  (updateExcelRow_out_of_bounds_grows_sheet [] 2 ⟨none, none, some 1, some "x"⟩
    ⟨[], [], []⟩ (by decide)).1

/-! ## Refund cycle lemmas -/

/-- Every refund scan returns one of three effect lists: nothing, one
transfer, or one transfer followed by one row update. -/
theorem refundScan_shapes (resolve : String → String) (transferResult : Option String)
    (treasuryBalance : ℚ) :
    ∀ (trades : List Row) (i : Nat),
      refundScan resolve transferResult treasuryBalance i trades = []
      ∨ (∃ o a, refundScan resolve transferResult treasuryBalance i trades
          = [Effect.transfer o a])
      ∨ (∃ o a j u, refundScan resolve transferResult treasuryBalance i trades
          = [Effect.transfer o a, Effect.update j u])
  | [], _ => Or.inl rfl
  | row :: rest, i => by
    by_cases hst : row.status = some 0
    · cases hamt : row.sol_buy_amount with
      | none => exact Or.inl (by simp [refundScan, hst, hamt])
      | some amt =>
        by_cases hbal : requiredBalance amt ≤ treasuryBalance
        · by_cases hres : resolve (row.ATA.getD "") = row.ATA.getD ""
          · exact Or.inl (by simp [refundScan, hst, hamt, hbal, hres])
          · cases htr : transferResult with
            | none =>
              exact Or.inr (Or.inl ⟨resolve (row.ATA.getD ""), amt,
                by simp [refundScan, hst, hamt, hbal, hres, htr]⟩)
            | some signature =>
              exact Or.inr (Or.inr ⟨resolve (row.ATA.getD ""), amt, i,
                ⟨none, none, some 1, some ("https://solscan.io/tx/" ++ signature)⟩,
                by simp [refundScan, hst, hamt, hbal, hres, htr]⟩)
        · exact Or.inl (by simp [refundScan, hst, hamt, hbal])
    · have := refundScan_shapes resolve transferResult treasuryBalance rest (i + 1)
      simpa [refundScan, hst] using this

/-- A transfer effect is only emitted when the treasury covers the
required balance of the settled amount. -/
theorem refundScan_transfer_requires (resolve : String → String)
    (transferResult : Option String) (treasuryBalance : ℚ) :
    ∀ (trades : List Row) (i : Nat) (o : String) (a : ℚ),
      Effect.transfer o a ∈ refundScan resolve transferResult treasuryBalance i trades →
      requiredBalance a ≤ treasuryBalance
  | [], _, o, a => by simp [refundScan]
  | row :: rest, i, o, a => by
    intro hmem
    by_cases hst : row.status = some 0
    · cases hamt : row.sol_buy_amount with
      | none => simp [refundScan, hst, hamt] at hmem
      | some amt =>
        by_cases hbal : requiredBalance amt ≤ treasuryBalance
        · by_cases hres : resolve (row.ATA.getD "") = row.ATA.getD ""
          · simp [refundScan, hst, hamt, hbal, hres] at hmem
          · cases htr : transferResult with
            | none =>
              simp [refundScan, hst, hamt, hbal, hres, htr] at hmem
              exact hmem.2 ▸ hbal
            | some signature =>
              simp [refundScan, hst, hamt, hbal, hres, htr] at hmem
              exact hmem.2 ▸ hbal
        · simp [refundScan, hst, hamt, hbal] at hmem
    · rw [refundScan] at hmem
      rw [if_neg hst] at hmem
      exact refundScan_transfer_requires resolve transferResult treasuryBalance rest (i + 1) o a hmem

/-- When every row before the first pending row is non-pending and that
pending row is unaffordable, the scan returns no effects. -/
theorem refundScan_halts_unaffordable (resolve : String → String)
    (transferResult : Option String) (treasuryBalance : ℚ) (row : Row) (amt : ℚ)
    (post : List Row) (hrow : row.status = some 0) (hamt : row.sol_buy_amount = some amt)
    (hb : treasuryBalance < requiredBalance amt) :
    ∀ (pre : List Row) (i : Nat), (∀ x ∈ pre, x.status ≠ some 0) →
      refundScan resolve transferResult treasuryBalance i (pre ++ row :: post) = []
  | [], i => fun _ => by
    simp [refundScan, hrow, hamt, not_le.mpr hb]
  | x :: pre, i => fun hpre => by
    have hx : x.status ≠ some 0 := hpre x (List.mem_cons_self x pre)
    have := refundScan_halts_unaffordable resolve transferResult treasuryBalance row amt post
      hrow hamt hb pre (i + 1) (fun y hy => hpre y (List.mem_cons_of_mem x hy))
    simpa [refundScan, hx] using this

/-! ## C4 -/

/-- C4: when the first pending row of the ledger is unaffordable, the
refund cycle performs no transfer and no row update at all, regardless
of what follows that row. -/
theorem unaffordable_first_pending_halts_cycle
    (enableRefunds : Bool) (resolve : String → String) (transferResult : Option String)
    (treasuryBalance : ℚ) (pre post : List Row) (row : Row) (amt : ℚ)
    (hpre : ∀ x ∈ pre, x.status ≠ some 0)
    (hrow : row.status = some 0)
    (hamt : row.sol_buy_amount = some amt)
    (hb : treasuryBalance < requiredBalance amt) :
    processRefunds enableRefunds resolve transferResult treasuryBalance
      (pre ++ row :: post) = [] := by
  cases enableRefunds with
  | false => rfl
  | true =>
    simp only [processRefunds, if_true]
    exact refundScan_halts_unaffordable resolve transferResult treasuryBalance row amt post
      hrow hamt hb pre 0 hpre

/-- Witness for C4: a refunded row followed by an unaffordable pending
row and another pending row; the cycle produces no effect. -/
theorem unaffordable_first_pending_halts_cycle_check :
    processRefunds true (fun a => a ++ "o") (some "sig") 3
      ([⟨some "A", some 1, some 1, some "l"⟩] ++
        (⟨some "B", some 1, some 0, some ""⟩ : Row) :: [⟨some "C", some 1, some 0, some ""⟩]) = [] :=
  unaffordable_first_pending_halts_cycle true (fun a => a ++ "o") (some "sig") 3
    [⟨some "A", some 1, some 1, some "l"⟩] [⟨some "C", some 1, some 0, some ""⟩]
    ⟨some "B", some 1, some 0, some ""⟩ 1 (by decide) rfl rfl
    (by norm_num [requiredBalance])

/-! ## C5 -/

/-- C5: every refund cycle submits at most one transfer and calls
`updateExcelRow` at most once, whatever the ledger contents and
treasury balance. -/
theorem at_most_one_settlement_per_cycle
    (enableRefunds : Bool) (resolve : String → String) (transferResult : Option String)
    (treasuryBalance : ℚ) (trades : List Row) :
    (processRefunds enableRefunds resolve transferResult treasuryBalance trades).countP
      isTransferEffect ≤ 1
    ∧ (processRefunds enableRefunds resolve transferResult treasuryBalance trades).countP
      isUpdateEffect ≤ 1 := by
  cases enableRefunds with
  | false => exact ⟨by simp [processRefunds], by simp [processRefunds]⟩
  | true =>
    simp only [processRefunds, if_true]
    rcases refundScan_shapes resolve transferResult treasuryBalance trades 0 with
      h | ⟨o, a, h⟩ | ⟨o, a, j, u, h⟩ <;> rw [h] <;>
      exact ⟨by simp [List.countP_cons, isTransferEffect, isUpdateEffect],
        by simp [List.countP_cons, isTransferEffect, isUpdateEffect]⟩

/-! ## C7 -/

/-- C7: the affordability threshold is `2 + 2 * settlementAmount`
(reserve buffer 2, multiplier 2); a transfer is only ever emitted when
the treasury covers that threshold; and with treasury balance 3 and a
pending amount of 1 the required balance is 4, so the cycle ends with no
settlement. -/
theorem refund_threshold_formula
    (enableRefunds : Bool) (resolve : String → String) (transferResult : Option String)
    (treasuryBalance : ℚ) (trades : List Row) :
    (∀ o a, Effect.transfer o a ∈
        processRefunds enableRefunds resolve transferResult treasuryBalance trades →
        requiredBalance a ≤ treasuryBalance)
    ∧ (∀ a : ℚ, requiredBalance a = 2 + 2 * a)
    ∧ requiredBalance 1 = 4
    ∧ (∀ (r2 : String → String) (t2 : Option String),
        processRefunds true r2 t2 3 [⟨some "W", some 1, some 0, some ""⟩] = []) := by
  refine ⟨?_, fun a => rfl, by norm_num [requiredBalance], ?_⟩
  · intro o a hmem
    cases enableRefunds with
    | false => simp [processRefunds] at hmem
    | true =>
      simp only [processRefunds, if_true] at hmem
      exact refundScan_transfer_requires resolve transferResult treasuryBalance trades 0 o a hmem
  · intro r2 t2
    norm_num [processRefunds, refundScan, requiredBalance]

/-- Witness for C7: a cycle with balance 10 settles the pending amount 1
and indeed `requiredBalance 1 ≤ 10`. -/
theorem refund_threshold_formula_check : requiredBalance 1 ≤ 10 :=
  (refund_threshold_formula true (fun _ => "OWNER") (some "sig") 10
    [⟨some "W", some 1, some 0, some ""⟩]).1 "OWNER" 1
    (by norm_num [processRefunds, refundScan, requiredBalance]; decide)

/-! ## C1 -/

/-- Counterexample to C1: when every write attempt fails, the append
returns `false`, yet after `processTrade` the buyer address is still in
`uniqueWallets` while the durable file holds no record for it — the
handler performs no rollback. -/
theorem append_failure_keeps_wallet_in_tracker :
    (appendTradeToExcel (fun _ => false) "W1" 1
      { uniqueWallets := ["W1"], sheet := [], file := [] }).1 = false
    ∧ (processTrade (fun _ => false)
        { uniqueWallets := [], sheet := [], file := [] } eventW1).uniqueWallets = ["W1"]
    ∧ (processTrade (fun _ => false)
        { uniqueWallets := [], sheet := [], file := [] } eventW1).file = [] := by
  decide

/-- C1 amended: on append failure the buyer address stays in
`uniqueWallets` and nothing reaches the durable file, so a later
duplicate event for that address is skipped as a duplicate, not
retried. -/
theorem append_failure_wallet_not_rolled_back
    (writeOk writeOk2 : Nat → Bool) (s : ConsumerState) (e : TradeEvent)
    (hfail : persistRetries writeOk = false)
    (hmint : e.buyMint = TARGET_MINT_ADDRESS)
    (hnew : e.buyerAddress ∉ s.uniqueWallets)
    (hsol : e.sellMint ∈ SOL_MINT_ADDRESSES)
    (hamt : 0 < e.sellAmount) :
    e.buyerAddress ∈ (processTrade writeOk s e).uniqueWallets
    ∧ (processTrade writeOk s e).file = s.file
    ∧ processTrade writeOk2 (processTrade writeOk s e) e = processTrade writeOk s e := by
  have hcond : TARGET_MINT_ADDRESS = "" ∨ e.buyMint = TARGET_MINT_ADDRESS := Or.inr hmint
  have hsolAmt : (if e.sellMint ∈ SOL_MINT_ADDRESSES then e.sellAmount else 0) = e.sellAmount :=
    if_pos hsol
  have hstep : processTrade writeOk s e =
      { uniqueWallets := e.buyerAddress :: s.uniqueWallets
      , sheet := appendTradeToExcelSheet s.sheet e.buyerAddress e.sellAmount
      , file := s.file } := by
    simp only [processTrade, hsolAmt]
    rw [if_pos hcond, if_pos ⟨hnew, hamt⟩]
    simp [appendTradeToExcel, hfail]
  refine ⟨by rw [hstep]; exact List.mem_cons_self _ _, by rw [hstep], ?_⟩
  rw [hstep]
  simp only [processTrade, hsolAmt]
  rw [if_pos hcond, if_neg]
  simp [List.mem_cons]

/-- Witness for the amended C1 at a concrete failing write. -/
theorem append_failure_wallet_not_rolled_back_check :
    "W1" ∈ (processTrade (fun _ => false)
        { uniqueWallets := [], sheet := [], file := [] } eventW1).uniqueWallets
    ∧ (processTrade (fun _ => false)
        { uniqueWallets := [], sheet := [], file := [] } eventW1).file = []
    ∧ processTrade (fun _ => false)
        (processTrade (fun _ => false) { uniqueWallets := [], sheet := [], file := [] } eventW1)
        eventW1
      = processTrade (fun _ => false) { uniqueWallets := [], sheet := [], file := [] } eventW1 :=
  append_failure_wallet_not_rolled_back (fun _ => false) (fun _ => false)
    { uniqueWallets := [], sheet := [], file := [] } eventW1
    rfl rfl (by decide) (by decide) (by decide)

/-! ## C2 -/

/-- Counterexample to C2: right after startup with a non-empty persisted
ledger, a record with payer address "W1" exists in the ledger while
"W1" is not in `uniqueWallets` — the set is not rebuilt from the file,
so the membership equivalence fails and dedup does not survive
restarts. -/
theorem startup_does_not_rebuild_dedup :
    (∃ r ∈ (startupState (some [⟨some "W1", some 1, some 0, some ""⟩])).file,
      r.ATA = some "W1")
    ∧ "W1" ∉ (startupState (some [⟨some "W1", some 1, some 0, some ""⟩])).uniqueWallets := by
  decide

/-- One `processTrade` step with an always-succeeding write preserves
the set-sheet membership equivalence and keeps the file equal to the
sheet. -/
theorem processTrade_persist_invariant (s : ConsumerState) (e : TradeEvent)
    (hiff : ∀ a, a ∈ s.uniqueWallets ↔ ∃ r ∈ s.sheet, r.ATA = some a)
    (hfile : s.file = s.sheet) :
    (∀ a, a ∈ (processTrade (fun _ => true) s e).uniqueWallets ↔
      ∃ r ∈ (processTrade (fun _ => true) s e).sheet, r.ATA = some a)
    ∧ (processTrade (fun _ => true) s e).file = (processTrade (fun _ => true) s e).sheet := by
  by_cases hcond : TARGET_MINT_ADDRESS = "" ∨ e.buyMint = TARGET_MINT_ADDRESS
  · by_cases hinner : e.buyerAddress ∉ s.uniqueWallets ∧
        0 < (if e.sellMint ∈ SOL_MINT_ADDRESSES then e.sellAmount else 0)
    · have hstep : processTrade (fun _ => true) s e =
          { uniqueWallets := e.buyerAddress :: s.uniqueWallets
          , sheet := appendTradeToExcelSheet s.sheet e.buyerAddress
              (if e.sellMint ∈ SOL_MINT_ADDRESSES then e.sellAmount else 0)
          , file := appendTradeToExcelSheet s.sheet e.buyerAddress
              (if e.sellMint ∈ SOL_MINT_ADDRESSES then e.sellAmount else 0) } := by
        simp only [processTrade]
        rw [if_pos hcond, if_pos hinner]
        simp [appendTradeToExcel, persistRetries_true]
      rw [hstep]
      refine ⟨fun a => ?_, rfl⟩
      simp only [List.mem_cons, appendTradeToExcelSheet, List.mem_append,
        List.mem_singleton, mkTradeRow]
      constructor
      · rintro (rfl | ha)
        · exact ⟨_, Or.inr (Or.inl rfl), rfl⟩
        · rcases (hiff a).mp ha with ⟨r, hr, hra⟩
          exact ⟨r, Or.inl hr, hra⟩
      · rintro ⟨r, hr | rfl | hnil, hra⟩
        · exact Or.inr ((hiff a).mpr ⟨r, hr, hra⟩)
        · exact Or.inl (Option.some.inj hra).symm
        · exact absurd hnil (List.not_mem_nil _)
    · have hstep : processTrade (fun _ => true) s e = s := by
        simp only [processTrade]
        rw [if_pos hcond, if_neg hinner]
      rw [hstep]; exact ⟨hiff, hfile⟩
  · have hstep : processTrade (fun _ => true) s e = s := by
      simp only [processTrade]
      rw [if_neg hcond]
    rw [hstep]; exact ⟨hiff, hfile⟩

/-- Running events from a state satisfying the invariant keeps it. -/
theorem runEvents_persist_invariant (events : List TradeEvent) :
    ∀ (s : ConsumerState),
      (∀ a, a ∈ s.uniqueWallets ↔ ∃ r ∈ s.sheet, r.ATA = some a) →
      s.file = s.sheet →
      (∀ a, a ∈ (runEvents (fun _ => true) s events).uniqueWallets ↔
        ∃ r ∈ (runEvents (fun _ => true) s events).sheet, r.ATA = some a)
      ∧ (runEvents (fun _ => true) s events).file =
          (runEvents (fun _ => true) s events).sheet := by
  induction events with
  | nil => intro s hiff hfile; exact ⟨hiff, hfile⟩
  | cons e rest ih =>
    intro s hiff hfile
    have hstep := processTrade_persist_invariant s e hiff hfile
    have : runEvents (fun _ => true) s (e :: rest) =
        runEvents (fun _ => true) (processTrade (fun _ => true) s e) rest := rfl
    rw [this]
    exact ih (processTrade (fun _ => true) s e) hstep.1 hstep.2

/-- C2 amended: `uniqueWallets` is not rebuilt at startup — it starts
empty whatever the persisted ledger holds, so the membership
equivalence does not survive a restart; within a single run that starts
from an empty ledger and whose writes all succeed, an address is in
`uniqueWallets` exactly when a row with that `ATA` is in the ledger. -/
theorem dedup_matches_sheet_within_single_run :
    (∀ rows : List Row, (startupState (some rows)).uniqueWallets = [])
    ∧ (∀ (events : List TradeEvent) (a : String),
        (a ∈ (runEvents (fun _ => true) (startupState none) events).uniqueWallets ↔
          ∃ r ∈ (runEvents (fun _ => true) (startupState none) events).sheet, r.ATA = some a)
        ∧ (runEvents (fun _ => true) (startupState none) events).file =
            (runEvents (fun _ => true) (startupState none) events).sheet) := by
  refine ⟨fun rows => rfl, fun events a => ?_⟩
  have h := runEvents_persist_invariant events (startupState none)
    (fun b => by simp [startupState]) rfl
  exact ⟨h.1 a, h.2⟩

/-! ## C3 -/

/-- Counterexample to C3: starting at t = 0, nine calls at t = 999 ms
and nine at t = 1000 ms all complete (the window resets at t = 1000), so
the contiguous span [999, 1999) contains 18 completions, exceeding the
limit of 9. -/
theorem sliding_window_bound_violated :
    completionsWithin 999 (rlRun ⟨0, 0⟩ burstTrace) = 18
    ∧ RATE_LIMIT_PER_SECOND < completionsWithin 999 (rlRun ⟨0, 0⟩ burstTrace) := by
  decide

/-- Within one fixed window (all completions granted under the same
`lastResetTime`), the number of completions is bounded by the limit
minus the count already consumed; for other window starts at most a full
window (later start) or nothing (earlier start) can complete. -/
theorem rlRun_fixed_window_bound (ts : List Nat) :
    ∀ (s : RLState) (r : Nat), s.requestCount ≤ RATE_LIMIT_PER_SECOND →
      (rlRun s ts).countP (fun p => p.2 == r) ≤
        (if s.lastResetTime = r then RATE_LIMIT_PER_SECOND - s.requestCount
         else if s.lastResetTime < r then RATE_LIMIT_PER_SECOND else 0) := by
  induction ts with
  | nil =>
    intro s r hc
    simp only [rlRun, List.countP_nil]
    exact Nat.zero_le _
  | cons now rest ih =>
    intro s r hc
    rw [rlRun]
    by_cases hreset : RATE_LIMIT_INTERVAL ≤ now - s.lastResetTime
    · have hlt : s.lastResetTime < now := by
        simp only [RATE_LIMIT_INTERVAL] at hreset; omega
      simp only [if_pos hreset]
      have hblock : ¬ RATE_LIMIT_PER_SECOND ≤
          (⟨0, now⟩ : RLState).requestCount := by
        simp [RATE_LIMIT_PER_SECOND]
      rw [if_neg hblock]
      rw [List.countP_cons]
      have ihh := ih ⟨(⟨0, now⟩ : RLState).requestCount + 1,
        (⟨0, now⟩ : RLState).lastResetTime⟩ r (by simp [RATE_LIMIT_PER_SECOND])
      simp only [RATE_LIMIT_PER_SECOND] at ihh hc ⊢
      simp only [beq_iff_eq] at ihh ⊢
      split_ifs at ihh ⊢ <;> omega
    · simp only [if_neg hreset]
      by_cases hblock : RATE_LIMIT_PER_SECOND ≤ s.requestCount
      · rw [if_pos hblock]
        exact ih s r hc
      · rw [if_neg hblock]
        rw [List.countP_cons]
        have ihh := ih ⟨s.requestCount + 1, s.lastResetTime⟩ r
          (by simp only [RATE_LIMIT_PER_SECOND] at hblock ⊢; omega)
        simp only [RATE_LIMIT_PER_SECOND] at ihh hc hblock ⊢
        simp only [beq_iff_eq] at ihh ⊢
        split_ifs at ihh ⊢ <;> omega

/-- C3 amended: the limiter enforces the bound per fixed window, not per
sliding span — for every attempt schedule and every window start value,
at most 9 acquisitions complete under that window start; arbitrary
contiguous 1-second spans can see up to twice the limit (see the
counterexample). -/
theorem fixed_window_completion_bound (startTime : Nat) (ts : List Nat) (r : Nat) :
    (rlRun ⟨0, startTime⟩ ts).countP (fun p => p.2 == r) ≤ RATE_LIMIT_PER_SECOND := by
  have h := rlRun_fixed_window_bound ts ⟨0, startTime⟩ r (Nat.zero_le _)
  split_ifs at h <;> simp only [RATE_LIMIT_PER_SECOND] at h ⊢ <;> omega

/-! ## C9 -/

/-- Counterexample to C9: a trade element that is an empty object (its
`Trade` field is missing) makes the field extraction of the handler throw —
`trade.Trade.Buy` is a property access on `undefined` — rather than
drop and log the event. -/
theorem malformed_event_throws :
    handleTrade (JVal.jobj []) = Except.error () := rfl

/-- C9 amended: the handler does not tolerate malformed events — for
every trade element whose `Trade` property reads as `undefined`, the
field extraction propagates an exception (an uncaught TypeError in the
source), so a malformed event crashes the consumer instead of being
dropped and logged. -/
theorem missing_trade_field_propagates_error (t : JVal)
    (h : jget t "Trade" = Except.ok JVal.undefined) :
    handleTrade t = Except.error () := by
  unfold handleTrade
  rw [h]
  rfl

/-- Witness for the amended C9: a non-object payload element. -/
theorem missing_trade_field_propagates_error_check :
    handleTrade (JVal.jstr "oops") = Except.error () :=
  missing_trade_field_propagates_error (JVal.jstr "oops") rfl
